import Mathlib

/-!
Shallow embedding of `faidx.c` (the samtools `faidx`/`fqidx` subcommand front
end) and proofs about its specification.

The program is a thin driver around an external indexing library (htslib).
Library calls (`fai_fetch`, `fai_fetchqual`, `hts_parse_reg`, `fai_build`,
`fai_load_format`, file opening, line reading) are modelled as oracle fields of
an `Env` structure; everything the file itself does — option handling, the
line-wrapped writer, the record emitter, the region-file loop, the driver
control flow — is translated directly from the C source.

Output to the selected output stream is modelled as a list of `OutItem`s
(each `body` item is one newline-terminated line); messages printed to stderr
are collected in `err` lists; calls into the library and resource events are
collected as `Event` traces.  I/O writes themselves are modelled as succeeding
(`fwrite`/`fputc` failures are environmental and not the subject of any claim).
-/

namespace Faidx

/-- Output format selector, mirroring `enum fai_format_options` as used by
`faidx_core` (`FAI_FASTA` / `FAI_FASTQ`). -/
inductive Format
  | fasta
  | fastq
deriving DecidableEq

/-- Command-line option tokens, one per `case` of the getopt loop in
`faidx_core`.  `help` is `-h` (usage, exit success), `invalid` is the `?`
case (usage, exit failure). -/
inductive Opt
  | output (s : String)
  | length (s : String)
  | cont
  | regionFile (s : String)
  | fastq
  | help
  | invalid
deriving DecidableEq

/-- Trace events: calls into the external library and resource actions. -/
inductive Event
  | build (f : String)
  | load (f : String)
  | openOut (p : String)
  | fetch (n : String)
  | fetchq (n : String)
  | destroy
deriving DecidableEq

/-- One item written to the output stream: a record header line
(`>name` in FASTA mode, `@name` in FASTQ mode), one newline-terminated
body line, or the FASTQ `+` separator line. -/
inductive OutItem
  | header (fmt : Format) (n : String)
  | body (l : List Char)
  | plus
deriving DecidableEq

/-- Result of `write_line`: success flag, stderr messages, body lines. -/
structure WRes where
  ok : Bool
  err : List String
  out : List (List Char)
deriving DecidableEq

/-- Result of a record / region-processing phase: success flag, stderr
messages, output items, library-call trace. -/
structure PhaseRes where
  ok : Bool
  err : List String
  out : List OutItem
  events : List Event
deriving DecidableEq

/-- Result of a whole run of `faidx_core`. -/
structure RunResult where
  ok : Bool
  err : List String
  out : List OutItem
  events : List Event
deriving DecidableEq

/-- The mutable option state accumulated by the getopt loop of `faidx_core`:
`ignore_error`, `line_len`, `output_file`, `region_file`, and the (possibly
`-f`-overridden) format. -/
structure OptState where
  ignore_error : Bool
  line_len : Nat
  output_file : Option String
  region_file : Option String
  format : Format
deriving DecidableEq

/-- Oracles for the external library and the file system.
`fetch n` models `fai_fetch` (returned `seq_len` and buffer), `fetchq` models
`fai_fetchqual`, `parse_reg` models `hts_parse_reg` (`some (beg, end)` on
nonzero return), `regionFileContents` models `hopen`+`kgetline` (`none` if the
open fails, otherwise the list of lines), `open_ok` models `fopen(_, "w")`,
and the three flags model `fai_load_format`, `fai_build` and `fflush`
success. -/
structure Env where
  fetch : String → Int × List Char
  fetchq : String → Int × List Char
  parse_reg : String → Option (Int × Int)
  regionFileContents : String → Option (List String)
  open_ok : String → Bool
  fai_load_ok : Bool
  fai_build_ok : Bool
  flush_ok : Bool

/-- `INT_MAX` from `<limits.h>`. -/
def INT_MAX : Int := 2147483647

/-- Fuel-driven chunking (structural recursion so that it computes by
`decide`/`rfl`).  `chunksFuel w fuel s` splits `s` into chunks of `w + 1`
characters, provided `s.length ≤ fuel`. -/
def chunksFuel (w : Nat) : Nat → List Char → List (List Char)
  | 0, _ => []
  | _ + 1, [] => []
  | fuel + 1, c :: cs => (c :: cs.take w) :: chunksFuel w fuel (cs.drop w)

/-- The loop of `write_line`: `for (i = 0; i < seq_sz; i += length)` writes
`min(length, seq_sz - i)` bytes of `line + i` followed by a newline; i.e. it
splits the buffer into chunks of `length` characters, the last one possibly
shorter.  For `length = 0` the C loop would never advance; `faidx_core`
guarantees `length ≥ 1` (see `processOpts`), and the model returns `[]` in
that never-reached case. -/
def chunksOf (w : Nat) (s : List Char) : List (List Char) :=
  match w with
  | 0 => []
  | w' + 1 => chunksFuel w' s.length s

/-- `write_line(file, line, name, ignore, length, seq_len)` from faidx.c.
A negative `seq_len` reports a failed fetch on stderr and fails unless
`ignore && seq_len == -2`; `seq_len == 0` warns about a zero-length sequence;
otherwise, if `hts_parse_reg` parses `name` with a finite end and the length
disagrees with the requested span, a truncation warning is printed. The body
loop then emits the first `seq_len` bytes of the buffer wrapped at `length`
characters per line. -/
def write_line (pr : String → Option (Int × Int)) (line : List Char) (name : String)
    (ignore : Bool) (length : Nat) (seq_len : Int) : WRes :=
  if seq_len < 0 then
    let e := ["[faidx] Failed to fetch sequence in " ++ name]
    if ignore ∧ seq_len = -2 then ⟨true, e, []⟩ else ⟨false, e, []⟩
  else
    let warn :=
      if seq_len = 0 then ["[faidx] Zero length sequence: " ++ name]
      else
        match pr name with
        | some (b, e) =>
            if e < INT_MAX ∧ seq_len ≠ e - b then ["[faidx] Truncated sequence: " ++ name]
            else []
        | none => []
    ⟨true, warn, chunksOf length (line.take seq_len.toNat)⟩

/-- `write_output(faid, file, name, ignore, length, format)` from faidx.c.
It fetches the sequence, prints the header line (before looking at the fetch
result), delegates to `write_line`, and in FASTQ mode additionally prints the
`+` separator, fetches the quality string and writes it the same way. -/
def write_output (env : Env) (name : String) (ignore : Bool) (length : Nat)
    (format : Format) : PhaseRes :=
  let sl := env.fetch name
  let hdr := OutItem.header format name
  let r1 := write_line env.parse_reg sl.2 name ignore length sl.1
  if r1.ok = false then
    ⟨false, r1.err, hdr :: r1.out.map OutItem.body, [Event.fetch name]⟩
  else
    match format with
    | Format.fasta => ⟨true, r1.err, hdr :: r1.out.map OutItem.body, [Event.fetch name]⟩
    | Format.fastq =>
        let ql := env.fetchq name
        let r2 := write_line env.parse_reg ql.2 name ignore length ql.1
        ⟨r2.ok, r1.err ++ r2.err,
          hdr :: (r1.out.map OutItem.body ++ OutItem.plus :: r2.out.map OutItem.body),
          [Event.fetch name, Event.fetchq name]⟩

/-- The loop of `read_regions_from_file`: `ret` starts as `EXIT_FAILURE`
and is overwritten by each `write_output` result; the loop breaks at the
first failure. `ret` here is the value returned if no lines remain. -/
def read_regions_loop (env : Env) (st : OptState) (ret : Bool) :
    List String → PhaseRes
  | [] => ⟨ret, [], [], []⟩
  | n :: ns =>
      let w := write_output env n st.ignore_error st.line_len st.format
      if w.ok then
        let r := read_regions_loop env st true ns
        ⟨r.ok, w.err ++ r.err, w.out ++ r.out, w.events ++ r.events⟩
      else ⟨false, w.err, w.out, w.events⟩

/-- `read_regions_from_file(faid, in_file, file, ignore, length, format)`:
process each line of the region file in order; the result is the last
`write_output` result, or `EXIT_FAILURE` if the file has no lines. -/
def read_regions_from_file (env : Env) (st : OptState) (lines : List String) : PhaseRes :=
  read_regions_loop env st false lines

/-- The positional-argument loop of `faidx_core`:
`while (++optind < argc && exit_status == EXIT_SUCCESS)
   exit_status = write_output(...)`. -/
def run_args (env : Env) (st : OptState) : List String → PhaseRes
  | [] => ⟨true, [], [], []⟩
  | r :: rs =>
      let w := write_output env r st.ignore_error st.line_len st.format
      if w.ok then
        let rest := run_args env st rs
        ⟨rest.ok, w.err ++ rest.err, w.out ++ rest.out, w.events ++ rest.events⟩
      else ⟨false, w.err, w.out, w.events⟩

/-- The region-file block of `faidx_core` (lines 240-253): if a region file
was requested, open it and process its lines; a failed open is reported and
fatal.  (The `hclose` warning does not affect the exit status and is not
modelled.)  Without a region file the phase is a no-op with success. -/
def regionPhase (env : Env) (st : OptState) : PhaseRes :=
  match st.region_file with
  | none => ⟨true, [], [], []⟩
  | some rf =>
      match env.regionFileContents rf with
      | some lines => read_regions_from_file env st lines
      | none => ⟨false, ["[faidx] Failed to open " ++ rf ++ " for reading."], [], []⟩

/-- The positional-argument loop as guarded by the region-file phase:
`while (++optind < argc && exit_status == EXIT_SUCCESS)` runs only while the
exit status is still success. -/
def phase2 (env : Env) (st : OptState) (regions : List String) : PhaseRes :=
  if (regionPhase env st).ok then run_args env st regions else ⟨true, [], [], []⟩

/-- The fetching part of `faidx_core` once the index is loaded and the output
stream is set up: region-file phase, then the positional-argument loop while
successful, then `fai_destroy` and the final flush. `ev1` is the trace of the
load/open events that already happened. -/
def faidx_fetch_phase (env : Env) (st : OptState) (regions : List String)
    (ev1 : List Event) : RunResult :=
  ⟨(if env.flush_ok then (regionPhase env st).ok && (phase2 env st regions).ok else false),
    (regionPhase env st).err ++ (phase2 env st regions).err ++
      (if env.flush_ok then [] else ["faidx: failed to flush output"]),
    (regionPhase env st).out ++ (phase2 env st regions).out,
    ev1 ++ (regionPhase env st).events ++ (phase2 env st regions).events ++ [Event.destroy]⟩

/-- `faidx_core` after option processing: the part of the function from the
`argc==optind` check onward. `args` is `argv[optind..]`; its head is the input
file, the rest are positional region arguments. -/
def faidx_post (env : Env) (st : OptState) (args : List String) : RunResult :=
  match args with
  | [] => ⟨true, [], [], []⟩
  | input :: regions =>
    if regions = [] ∧ st.region_file = none then
      if env.fai_build_ok then ⟨true, [], [], [Event.build input]⟩
      else ⟨false, ["[faidx] Could not build fai index " ++ input ++ ".fai"], [],
             [Event.build input]⟩
    else if env.fai_load_ok = false then
      ⟨false, ["[faidx] Could not load fai index of " ++ input], [], []⟩
    else
      match st.output_file with
      | some p =>
          if p = input then
            ⟨false, ["[faidx] Same input/output : " ++ p], [], [Event.load input]⟩
          else if env.open_ok p = false then
            ⟨false, ["[faidx] Cannot open " ++ p ++ " for writing"], [], [Event.load input]⟩
          else faidx_fetch_phase env st regions [Event.load input, Event.openOut p]
      | none => faidx_fetch_phase env st regions [Event.load input]

/-- C `atoi`: skip leading whitespace, optional sign, then decimal digits. -/
def atoiDigits : List Char → Int → Int
  | [], acc => acc
  | c :: cs, acc => if c.isDigit then atoiDigits cs (acc * 10 + ((c.toNat : Int) - 48)) else acc

/-- C `atoi` on a Lean `String` (overflow not modelled; the program only
compares the result with 1). -/
def atoi (s : String) : Int :=
  let l := s.toList.dropWhile fun c =>
    c == ' ' || c == '\t' || c == '\n' || c == '\x0b' || c == '\x0c' || c == '\r'
  match l with
  | '-' :: r => - atoiDigits r 0
  | '+' :: r => atoiDigits r 0
  | _ => atoiDigits l 0

/-- The getopt loop of `faidx_core`: fold over the option tokens, updating the
option state and collecting warnings; `-h` and `?` return early with a usage
exit status (`some status`). A `--length` value below 1 falls back to the
default 60 with a warning. -/
def processOpts : OptState → List String → List Opt → Option Bool × OptState × List String
  | st, ws, [] => (none, st, ws)
  | st, ws, o :: os =>
      match o with
      | Opt.output s => processOpts { st with output_file := some s } ws os
      | Opt.length s =>
          let v := atoi s
          if v < 1 then
            processOpts { st with line_len := 60 }
              (ws ++ ["[faidx] bad line length " ++ s ++ ", using default:60"]) os
          else processOpts { st with line_len := v.toNat } ws os
      | Opt.cont => processOpts { st with ignore_error := true } ws os
      | Opt.regionFile s => processOpts { st with region_file := some s } ws os
      | Opt.fastq => processOpts { st with format := Format.fastq } ws os
      | Opt.help => (some true, st, ws)
      | Opt.invalid => (some false, st, ws)

/-- The initial option state of `faidx_core` for a given entry format:
`ignore_error = 0`, `line_len = DEFAULT_FASTA_LINE_LEN`, no output file,
no region file. -/
def initSt (fmt : Format) : OptState :=
  ⟨false, 60, none, none, fmt⟩

/-- `faidx_core(argc, argv, format)`: process options, then dispatch.
`opts` are the option tokens seen by the getopt loop, `args` is
`argv[optind..]` after getopt permutation. -/
def faidx_core (env : Env) (fmt : Format) (opts : List Opt) (args : List String) : RunResult :=
  match processOpts (initSt fmt) [] opts with
  | (some es, _, ws) => ⟨es, ws, [], []⟩
  | (none, st, ws) =>
      let r := faidx_post env st args
      ⟨r.ok, ws ++ r.err, r.out, r.events⟩

/-! ### Properties of the chunking performed by the `write_line` loop -/

/-- `chunksFuel` does not depend on the exact fuel, as long as it dominates
the list length. -/
theorem chunksFuel_congr (w f : Nat) (s : List Char) (h : s.length ≤ f) :
    chunksFuel w f s = chunksFuel w s.length s := by
  match f, s with
  | f, [] => cases f <;> rfl
  | f + 1, c :: cs =>
    have h' : cs.length ≤ f := Nat.le_of_succ_le_succ h
    show (c :: cs.take w) :: chunksFuel w f (cs.drop w)
       = (c :: cs.take w) :: chunksFuel w cs.length (cs.drop w)
    congr 1
    rw [chunksFuel_congr w f (cs.drop w) (by rw [List.length_drop]; omega),
        chunksFuel_congr w cs.length (cs.drop w) (by rw [List.length_drop]; omega)]
termination_by f
decreasing_by all_goals omega

/-- One-step unfolding of the wrapping: the first chunk holds `w + 1`
characters (or all of them), the rest is the wrapping of what is left. -/
theorem chunksOf_cons (w : Nat) (c : Char) (cs : List Char) :
    chunksOf (w + 1) (c :: cs) = (c :: cs.take w) :: chunksOf (w + 1) (cs.drop w) := by
  have h1 : chunksOf (w + 1) (c :: cs)
      = (c :: cs.take w) :: chunksFuel w cs.length (cs.drop w) := rfl
  rw [h1]
  congr 1
  exact chunksFuel_congr w cs.length (cs.drop w) (by rw [List.length_drop]; omega)

/-- Concatenating the emitted lines recovers the input buffer. -/
theorem chunksOf_flatten (w : Nat) (s : List Char) :
    (chunksOf (w + 1) s).flatten = s := by
  match s with
  | [] => rfl
  | c :: cs =>
    rw [chunksOf_cons, List.flatten_cons, chunksOf_flatten w (cs.drop w),
        List.cons_append, List.take_append_drop]
termination_by s.length
decreasing_by simp only [List.length_drop, List.length_cons]; omega

/-- The number of emitted lines is `⌈length / width⌉`. -/
theorem chunksOf_length (w : Nat) (s : List Char) :
    (chunksOf (w + 1) s).length = (s.length + w) / (w + 1) := by
  match s with
  | [] =>
    have h0 : chunksOf (w + 1) ([] : List Char) = [] := rfl
    rw [h0]
    simp [Nat.div_eq_of_lt (show w < w + 1 by omega)]
  | c :: cs =>
    rw [chunksOf_cons, List.length_cons, chunksOf_length w (cs.drop w),
        List.length_drop, List.length_cons]
    by_cases hle : cs.length ≤ w
    · have h1 : cs.length - w = 0 := by omega
      rw [h1]
      have h2 : (0 + w) / (w + 1) = 0 := Nat.div_eq_of_lt (by omega)
      have h3 : (cs.length + 1 + w) / (w + 1) = 1 :=
        Nat.div_eq_of_lt_le (by omega) (by omega)
      rw [h2, h3]
    · have h1 : cs.length - w + w = cs.length := by omega
      have h2 : cs.length + 1 + w = cs.length + (w + 1) := by omega
      rw [h1, h2, Nat.add_div_right _ (by omega)]
termination_by s.length
decreasing_by simp only [List.length_drop, List.length_cons]; omega

/-- Structure of the emitted lines: all full-width except the last, whose
length is `L mod W`, or `W` when `W` divides `L`. -/
theorem chunksOf_struct (w : Nat) (s : List Char) (hs : s ≠ []) :
    ∃ body last, chunksOf (w + 1) s = body ++ [last] ∧
      (∀ l ∈ body, l.length = w + 1) ∧
      last.length = (if s.length % (w + 1) = 0 then w + 1 else s.length % (w + 1)) := by
  match s with
  | c :: cs =>
    by_cases hle : cs.length ≤ w
    · refine ⟨[], c :: cs.take w, ?_, by simp, ?_⟩
      · rw [chunksOf_cons, List.drop_eq_nil_of_le hle]
        rfl
      · have hlen : (c :: cs.take w).length = cs.length + 1 := by
          simp [List.length_take]; omega
        rw [hlen, List.length_cons]
        by_cases heq : cs.length + 1 = w + 1
        · rw [heq]; simp [Nat.mod_self]
        · have hlt : cs.length + 1 < w + 1 := by omega
          rw [Nat.mod_eq_of_lt hlt, if_neg (by omega)]
    · have hne : cs.drop w ≠ [] := by
        intro h
        have := congrArg List.length h
        simp only [List.length_drop, List.length_nil] at this
        omega
      obtain ⟨b, last, hb, hball, hblen⟩ := chunksOf_struct w (cs.drop w) hne
      refine ⟨(c :: cs.take w) :: b, last, ?_, ?_, ?_⟩
      · rw [chunksOf_cons, hb, List.cons_append]
      · intro l hl
        rcases List.mem_cons.mp hl with h | h
        · subst h; simp [List.length_take]; omega
        · exact hball l h
      · rw [hblen, List.length_drop, List.length_cons]
        have h2 : cs.length + 1 = (cs.length - w) + (w + 1) := by omega
        rw [h2, Nat.add_mod_right]
termination_by s.length
decreasing_by simp only [List.length_drop, List.length_cons]; omega

/-- For a successful nonempty fetch, the body emitted by `write_line` is the
wrapping of the buffer. -/
theorem write_line_out (pr : String → Option (Int × Int)) (line : List Char)
    (name : String) (ig : Bool) (W : Nat) (L : Int) (h0 : 0 ≤ L) :
    (write_line pr line name ig W L).out = chunksOf W (line.take L.toNat) := by
  unfold write_line
  rw [if_neg (by omega)]

/-- Claim C1: for every sequence buffer of length `L ≥ 1` and wrap width
`W ≥ 1`, the body emitted by `write_line` consists of `⌈L/W⌉`
newline-terminated lines whose concatenation is the input buffer, each of
length `W` except possibly the last, which has length `L mod W` (or `W` when
`W` divides `L`), and no line of any other length. -/
theorem claim1_wrapped_writer (pr : String → Option (Int × Int)) (line : List Char)
    (name : String) (ig : Bool) (W : Nat) (hW : 1 ≤ W) (hL : 1 ≤ line.length) :
    ∃ body last,
      (write_line pr line name ig W (line.length : Int)).out = body ++ [last] ∧
      (write_line pr line name ig W (line.length : Int)).out.flatten = line ∧
      (write_line pr line name ig W (line.length : Int)).out.length
        = (line.length + (W - 1)) / W ∧
      (∀ l ∈ body, l.length = W) ∧
      last.length = (if line.length % W = 0 then W else line.length % W) := by
  obtain ⟨w, rfl⟩ : ∃ w, W = w + 1 := ⟨W - 1, by omega⟩
  have hout : (write_line pr line name ig (w + 1) (line.length : Int)).out
      = chunksOf (w + 1) line := by
    rw [write_line_out pr line name ig (w + 1) (line.length : Int) (by omega),
        Int.toNat_natCast, List.take_length]
  obtain ⟨body, last, hb, hball, hblen⟩ :=
    chunksOf_struct w line (by intro h; subst h; simp at hL)
  exact ⟨body, last, by rw [hout, hb], by rw [hout, chunksOf_flatten],
    by rw [hout, chunksOf_length, Nat.add_sub_cancel], hball, hblen⟩

/-- Witness for C1 at `L = 5`, `W = 2`. -/
theorem claim1_wrapped_writer_witness :
    (1 ≤ 2 ∧ 1 ≤ (['a', 'b', 'c', 'd', 'e'] : List Char).length) ∧
    ∃ body last,
      (write_line (fun _ => none) ['a', 'b', 'c', 'd', 'e'] "chr1" false 2
          ((['a', 'b', 'c', 'd', 'e'] : List Char).length : Int)).out = body ++ [last] ∧
      (write_line (fun _ => none) ['a', 'b', 'c', 'd', 'e'] "chr1" false 2
          ((['a', 'b', 'c', 'd', 'e'] : List Char).length : Int)).out.flatten
        = ['a', 'b', 'c', 'd', 'e'] ∧
      (write_line (fun _ => none) ['a', 'b', 'c', 'd', 'e'] "chr1" false 2
          ((['a', 'b', 'c', 'd', 'e'] : List Char).length : Int)).out.length
        = ((['a', 'b', 'c', 'd', 'e'] : List Char).length + (2 - 1)) / 2 ∧
      (∀ l ∈ body, l.length = 2) ∧
      last.length = (if (['a', 'b', 'c', 'd', 'e'] : List Char).length % 2 = 0 then 2
                     else (['a', 'b', 'c', 'd', 'e'] : List Char).length % 2) :=
  ⟨by decide, claim1_wrapped_writer (fun _ => none) ['a', 'b', 'c', 'd', 'e'] "chr1" false 2
      (by decide) (by decide)⟩

/-! ### Characterization of `write_line` on each input class -/

/-- Wrapping the empty buffer emits no lines. -/
theorem chunksOf_nil (W : Nat) : chunksOf W [] = [] := by
  cases W <;> rfl

/-- `write_line` on a failed fetch (negative length): the failure is reported
on stderr, nothing is written, and the result is success exactly when
continue-mode is on and the length is the "not found" sentinel `-2`. -/
theorem write_line_neg (pr : String → Option (Int × Int)) (line : List Char)
    (name : String) (ig : Bool) (W : Nat) (L : Int) (h : L < 0) :
    write_line pr line name ig W L =
      if ig ∧ L = -2 then ⟨true, ["[faidx] Failed to fetch sequence in " ++ name], []⟩
      else ⟨false, ["[faidx] Failed to fetch sequence in " ++ name], []⟩ := by
  unfold write_line
  rw [if_pos h]

/-- `write_line` on a zero-length fetch: a warning only, no body lines,
success. -/
theorem write_line_zero (pr : String → Option (Int × Int)) (line : List Char)
    (name : String) (ig : Bool) (W : Nat) :
    write_line pr line name ig W 0 =
      ⟨true, ["[faidx] Zero length sequence: " ++ name], []⟩ := by
  unfold write_line
  rw [if_neg (by omega), if_pos rfl]
  rw [show (0 : Int).toNat = 0 from rfl, List.take_zero, chunksOf_nil]

/-- `write_line` on a positive-length fetch: success, the wrapped buffer as
body, and a truncation warning exactly when the name parses as a region with
a finite end whose span disagrees with the length. -/
theorem write_line_pos (pr : String → Option (Int × Int)) (line : List Char)
    (name : String) (ig : Bool) (W : Nat) (L : Int) (h : 0 < L) :
    write_line pr line name ig W L =
      ⟨true,
        (match pr name with
         | some (b, e) =>
             if e < INT_MAX ∧ L ≠ e - b then ["[faidx] Truncated sequence: " ++ name]
             else []
         | none => []),
        chunksOf W (line.take L.toNat)⟩ := by
  unfold write_line
  rw [if_neg (by omega), if_neg (by omega)]

/-- Claim C7: when a region specifier parses as a coordinate range with a
finite end and the fetched length (≥ 1) differs from the requested span, a
truncation warning is printed but the fetched bytes are still emitted in full
as a wrapped body, and the writer succeeds; a fetched length of zero produces
only a warning, emits no body lines, and also succeeds. -/
theorem claim7_truncation_and_zero (pr : String → Option (Int × Int)) (line : List Char)
    (name : String) (ig : Bool) (W : Nat) (b e L : Int)
    (hW : 1 ≤ W) (hpr : pr name = some (b, e)) (he : e < INT_MAX) :
    (1 ≤ L → L ≠ e - b →
      (write_line pr line name ig W L).ok = true ∧
      (write_line pr line name ig W L).err = ["[faidx] Truncated sequence: " ++ name] ∧
      (write_line pr line name ig W L).out = chunksOf W (line.take L.toNat) ∧
      (write_line pr line name ig W L).out.flatten = line.take L.toNat) ∧
    ((write_line pr line name ig W 0).ok = true ∧
      (write_line pr line name ig W 0).err = ["[faidx] Zero length sequence: " ++ name] ∧
      (write_line pr line name ig W 0).out = []) := by
  obtain ⟨w, rfl⟩ : ∃ w, W = w + 1 := ⟨W - 1, by omega⟩
  constructor
  · intro hL hne
    rw [write_line_pos pr line name ig (w + 1) L (by omega)]
    refine ⟨rfl, ?_, rfl, chunksOf_flatten w _⟩
    simp only [hpr]
    rw [if_pos ⟨he, hne⟩]
  · rw [write_line_zero]
    exact ⟨rfl, rfl, rfl⟩

/-- Witness for C7 with `name:1-10` parsed as span 10 and fetched length 4. -/
theorem claim7_truncation_and_zero_witness :
    (1 ≤ 60 ∧ (fun _ : String => some ((1 : Int), (10 : Int))) "x:1-10" = some (1, 10) ∧
      (10 : Int) < INT_MAX) ∧
    ((1 ≤ (4 : Int) → (4 : Int) ≠ 10 - 1 →
      (write_line (fun _ => some (1, 10)) ['A', 'C', 'G', 'T'] "x:1-10" false 60 4).ok = true ∧
      (write_line (fun _ => some (1, 10)) ['A', 'C', 'G', 'T'] "x:1-10" false 60 4).err
        = ["[faidx] Truncated sequence: " ++ "x:1-10"] ∧
      (write_line (fun _ => some (1, 10)) ['A', 'C', 'G', 'T'] "x:1-10" false 60 4).out
        = chunksOf 60 (['A', 'C', 'G', 'T'].take (4 : Int).toNat) ∧
      (write_line (fun _ => some (1, 10)) ['A', 'C', 'G', 'T'] "x:1-10" false 60 4).out.flatten
        = ['A', 'C', 'G', 'T'].take (4 : Int).toNat) ∧
    ((write_line (fun _ => some (1, 10)) ['A', 'C', 'G', 'T'] "x:1-10" false 60 0).ok = true ∧
      (write_line (fun _ => some (1, 10)) ['A', 'C', 'G', 'T'] "x:1-10" false 60 0).err
        = ["[faidx] Zero length sequence: " ++ "x:1-10"] ∧
      (write_line (fun _ => some (1, 10)) ['A', 'C', 'G', 'T'] "x:1-10" false 60 0).out = [])) :=
  ⟨⟨by omega, rfl, by decide⟩,
    claim7_truncation_and_zero (fun _ => some (1, 10)) ['A', 'C', 'G', 'T'] "x:1-10" false 60
      1 10 4 (by omega) rfl (by decide)⟩

/-! ### Traces of the region-processing loops -/

/-- Names of `fai_fetch` calls in a trace, in order: one per processed
region (the quality fetch of FASTQ mode is a separate `fetchq` event). -/
def fetchNames (es : List Event) : List String :=
  es.filterMap fun e => match e with | Event.fetch n => some n | _ => none

theorem fetchNames_append (a b : List Event) :
    fetchNames (a ++ b) = fetchNames a ++ fetchNames b :=
  List.filterMap_append ..

/-- Modelled from the spec: "stop at the first failure and propagate it,
unless continue-on-missing mode is enabled and the failure is specifically a
not-found condition" — the sequence of regions a phase attempts, in input
order, cut off just after the first fatally-failing one (a skipped not-found
region is not fatal, because `write_output` succeeds on it). -/
def specStopAfterFirstFatal (env : Env) (st : OptState) : List String → List String
  | [] => []
  | n :: ns =>
      if (write_output env n st.ignore_error st.line_len st.format).ok then
        n :: specStopAfterFirstFatal env st ns
      else [n]

/-- Every region of the list is emitted without a fatal failure. -/
def allOk (env : Env) (st : OptState) (names : List String) : Bool :=
  names.all fun n => (write_output env n st.ignore_error st.line_len st.format).ok

/-- `write_output` produces one `fetch` event, plus a `fetchq` event in
FASTQ mode. -/
theorem write_output_events (env : Env) (n : String) (ig : Bool) (len : Nat) (fmt : Format) :
    (write_output env n ig len fmt).events = [Event.fetch n] ∨
    (write_output env n ig len fmt).events = [Event.fetch n, Event.fetchq n] := by
  cases h : (write_line env.parse_reg (env.fetch n).2 n ig len (env.fetch n).1).ok <;>
    cases fmt <;> simp [write_output, h]

theorem write_output_fetchNames (env : Env) (n : String) (ig : Bool) (len : Nat) (fmt : Format) :
    fetchNames (write_output env n ig len fmt).events = [n] := by
  rcases write_output_events env n ig len fmt with h | h <;> rw [h] <;> rfl

theorem write_output_no_destroy (env : Env) (n : String) (ig : Bool) (len : Nat) (fmt : Format) :
    Event.destroy ∉ (write_output env n ig len fmt).events := by
  rcases write_output_events env n ig len fmt with h | h <;> rw [h] <;> simp

/-- In FASTA mode, `write_output` emits the `>` header followed by the
`write_line` body; its status is the `write_line` status. -/
theorem write_output_fasta (env : Env) (n : String) (ig : Bool) (len : Nat) :
    write_output env n ig len Format.fasta =
      ⟨(write_line env.parse_reg (env.fetch n).2 n ig len (env.fetch n).1).ok,
       (write_line env.parse_reg (env.fetch n).2 n ig len (env.fetch n).1).err,
       OutItem.header Format.fasta n ::
         ((write_line env.parse_reg (env.fetch n).2 n ig len
             (env.fetch n).1).out.map OutItem.body),
       [Event.fetch n]⟩ := by
  cases h : (write_line env.parse_reg (env.fetch n).2 n ig len (env.fetch n).1).ok <;>
    simp [write_output, h]

/-- The loop of `read_regions_from_file` processes the file lines in order,
stopping just after the first fatal failure. -/
theorem read_regions_loop_fetchNames (env : Env) (st : OptState) (names : List String) :
    ∀ ret, fetchNames (read_regions_loop env st ret names).events
      = specStopAfterFirstFatal env st names := by
  induction names with
  | nil => intro ret; rfl
  | cons n ns ih =>
    intro ret
    by_cases h : (write_output env n st.ignore_error st.line_len st.format).ok = true
    · simp only [read_regions_loop, specStopAfterFirstFatal, h, if_true]
      rw [fetchNames_append, write_output_fetchNames, ih true]
      rfl
    · simp only [read_regions_loop, specStopAfterFirstFatal, if_neg h]
      rw [write_output_fetchNames]

/-- The status of the `read_regions_from_file` loop: the initial `ret` for an
empty list (initially `EXIT_FAILURE`), otherwise success exactly when every
line is emitted without a fatal failure. -/
theorem read_regions_loop_ok (env : Env) (st : OptState) (names : List String) :
    ∀ ret, (read_regions_loop env st ret names).ok
      = (if names.isEmpty then ret else allOk env st names) := by
  induction names with
  | nil => intro ret; rfl
  | cons n ns ih =>
    intro ret
    by_cases h : (write_output env n st.ignore_error st.line_len st.format).ok = true
    · simp only [read_regions_loop, h, if_true]
      rw [ih true]
      cases ns with
      | nil => simp [allOk, h]
      | cons m ms => simp [allOk, h]
    · simp only [read_regions_loop, if_neg h]
      simp only [List.isEmpty_cons, if_false]
      simp [allOk, h]

theorem read_regions_loop_no_destroy (env : Env) (st : OptState) (names : List String) :
    ∀ ret, Event.destroy ∉ (read_regions_loop env st ret names).events := by
  induction names with
  | nil => intro ret; simp [read_regions_loop]
  | cons n ns ih =>
    intro ret
    by_cases h : (write_output env n st.ignore_error st.line_len st.format).ok = true
    · simp only [read_regions_loop, h, if_true]
      simp only [List.mem_append]
      rintro (hd | hd)
      · exact write_output_no_destroy env n st.ignore_error st.line_len st.format hd
      · exact ih true hd
    · simp only [read_regions_loop, if_neg h]
      exact write_output_no_destroy env n st.ignore_error st.line_len st.format

/-- The positional-argument loop processes the arguments in order, stopping
just after the first fatal failure. -/
theorem run_args_fetchNames (env : Env) (st : OptState) (rs : List String) :
    fetchNames (run_args env st rs).events = specStopAfterFirstFatal env st rs := by
  induction rs with
  | nil => rfl
  | cons r rs ih =>
    by_cases h : (write_output env r st.ignore_error st.line_len st.format).ok = true
    · simp only [run_args, specStopAfterFirstFatal, h, if_true]
      rw [fetchNames_append, write_output_fetchNames, ih]
      rfl
    · simp only [run_args, specStopAfterFirstFatal, if_neg h]
      rw [write_output_fetchNames]

theorem run_args_no_destroy (env : Env) (st : OptState) (rs : List String) :
    Event.destroy ∉ (run_args env st rs).events := by
  induction rs with
  | nil => simp [run_args]
  | cons r rs ih =>
    by_cases h : (write_output env r st.ignore_error st.line_len st.format).ok = true
    · simp only [run_args, h, if_true]
      simp only [List.mem_append]
      rintro (hd | hd)
      · exact write_output_no_destroy env r st.ignore_error st.line_len st.format hd
      · exact ih hd
    · simp only [run_args, if_neg h]
      exact write_output_no_destroy env r st.ignore_error st.line_len st.format

/-! ### Unfolding the driver -/

theorem regionPhase_none (env : Env) (st : OptState) (h : st.region_file = none) :
    regionPhase env st = ⟨true, [], [], []⟩ := by
  unfold regionPhase
  rw [h]

theorem regionPhase_lines (env : Env) (st : OptState) (rf : String) (lines : List String)
    (h : st.region_file = some rf) (hc : env.regionFileContents rf = some lines) :
    regionPhase env st = read_regions_from_file env st lines := by
  simp only [regionPhase, h, hc]

theorem regionPhase_openFail (env : Env) (st : OptState) (rf : String)
    (h : st.region_file = some rf) (hc : env.regionFileContents rf = none) :
    regionPhase env st
      = ⟨false, ["[faidx] Failed to open " ++ rf ++ " for reading."], [], []⟩ := by
  simp only [regionPhase, h, hc]

theorem regionPhase_no_destroy (env : Env) (st : OptState) :
    Event.destroy ∉ (regionPhase env st).events := by
  cases h : st.region_file with
  | none => rw [regionPhase_none env st h]; simp
  | some rf =>
    cases hc : env.regionFileContents rf with
    | none => rw [regionPhase_openFail env st rf h hc]; simp
    | some lines =>
      rw [regionPhase_lines env st rf lines h hc]
      exact read_regions_loop_no_destroy env st lines false

/-- Events already in the trace when the fetch phase starts: the successful
index load and, when an output file was requested, its opening. -/
def outEvents (st : OptState) (input : String) : List Event :=
  match st.output_file with
  | some p => [Event.load input, Event.openOut p]
  | none => [Event.load input]

theorem outEvents_no_destroy (st : OptState) (input : String) :
    Event.destroy ∉ outEvents st input := by
  unfold outEvents
  cases st.output_file <;> simp

theorem outEvents_fetchNames (st : OptState) (input : String) :
    fetchNames (outEvents st input) = [] := by
  unfold outEvents
  cases st.output_file <;> rfl

theorem outEvents_no_fetch (st : OptState) (input : String) :
    ∀ n, Event.fetch n ∉ outEvents st input := by
  intro n
  unfold outEvents
  cases st.output_file <;> simp

theorem outEvents_no_fetchq (st : OptState) (input : String) :
    ∀ n, Event.fetchq n ∉ outEvents st input := by
  intro n
  unfold outEvents
  cases st.output_file <;> simp

/-- When the run gets past the index load and the output-stream setup, the
driver runs the fetch phase. -/
theorem faidx_post_run (env : Env) (st : OptState) (input : String) (regions : List String)
    (hnb : ¬(regions = [] ∧ st.region_file = none))
    (hload : env.fai_load_ok = true)
    (hout : ∀ p, st.output_file = some p → p ≠ input ∧ env.open_ok p = true) :
    faidx_post env st (input :: regions) =
      faidx_fetch_phase env st regions (outEvents st input) := by
  simp only [faidx_post]
  rw [if_neg hnb, if_neg (by rw [hload]; simp)]
  cases houtf : st.output_file with
  | none => simp [outEvents, houtf]
  | some p =>
    obtain ⟨hne, hop⟩ := hout p houtf
    show (if p = input then
            ({ ok := false, err := ["[faidx] Same input/output : " ++ p], out := [],
               events := [Event.load input] } : RunResult)
          else if env.open_ok p = false then
            { ok := false, err := ["[faidx] Cannot open " ++ p ++ " for writing"], out := [],
              events := [Event.load input] }
          else faidx_fetch_phase env st regions [Event.load input, Event.openOut p])
        = faidx_fetch_phase env st regions (outEvents st input)
    rw [if_neg hne, if_neg (by rw [hop]; simp)]
    simp [outEvents, houtf]

theorem faidx_fetch_phase_ok (env : Env) (st : OptState) (regions : List String)
    (ev1 : List Event) :
    (faidx_fetch_phase env st regions ev1).ok
      = (if env.flush_ok then (regionPhase env st).ok && (phase2 env st regions).ok
         else false) := rfl

theorem faidx_fetch_phase_err (env : Env) (st : OptState) (regions : List String)
    (ev1 : List Event) :
    (faidx_fetch_phase env st regions ev1).err
      = (regionPhase env st).err ++ (phase2 env st regions).err ++
          (if env.flush_ok then [] else ["faidx: failed to flush output"]) := rfl

theorem faidx_fetch_phase_out (env : Env) (st : OptState) (regions : List String)
    (ev1 : List Event) :
    (faidx_fetch_phase env st regions ev1).out
      = (regionPhase env st).out ++ (phase2 env st regions).out := rfl

theorem faidx_fetch_phase_events (env : Env) (st : OptState) (regions : List String)
    (ev1 : List Event) :
    (faidx_fetch_phase env st regions ev1).events
      = ev1 ++ (regionPhase env st).events ++ (phase2 env st regions).events
          ++ [Event.destroy] := rfl

/-- With no positional region arguments the guarded positional loop is a
no-op with success, whatever the region-file phase did. -/
theorem phase2_nil (env : Env) (st : OptState) :
    phase2 env st [] = ⟨true, [], [], []⟩ := by
  unfold phase2
  split <;> rfl

theorem phase2_fetchNames (env : Env) (st : OptState) (regions : List String) :
    fetchNames (phase2 env st regions).events
      = (if (regionPhase env st).ok then specStopAfterFirstFatal env st regions else []) := by
  unfold phase2
  split
  · exact run_args_fetchNames env st regions
  · rfl

/-- Shape of a run with no output file, no region file, and at least one
positional region. -/
theorem faidx_post_simple (env : Env) (ig : Bool) (W : Nat) (fmt : Format) (f : String)
    (regions : List String) (hne : regions ≠ [])
    (hload : env.fai_load_ok = true) (hflush : env.flush_ok = true) :
    faidx_post env ⟨ig, W, none, none, fmt⟩ (f :: regions) =
      ⟨(run_args env ⟨ig, W, none, none, fmt⟩ regions).ok,
       (run_args env ⟨ig, W, none, none, fmt⟩ regions).err,
       (run_args env ⟨ig, W, none, none, fmt⟩ regions).out,
       Event.load f :: ((run_args env ⟨ig, W, none, none, fmt⟩ regions).events
         ++ [Event.destroy])⟩ := by
  rw [faidx_post_run env ⟨ig, W, none, none, fmt⟩ f regions (by simp [hne]) hload
      (by intro p h; cases h)]
  unfold faidx_fetch_phase phase2
  rw [regionPhase_none env ⟨ig, W, none, none, fmt⟩ rfl]
  simp [hflush, outEvents]

/-- Shape of a run with no output file, a region file, and no positional
regions. -/
theorem faidx_post_regfile (env : Env) (ig : Bool) (W : Nat) (fmt : Format) (f rf : String)
    (lines : List String)
    (hc : env.regionFileContents rf = some lines)
    (hload : env.fai_load_ok = true) (hflush : env.flush_ok = true) :
    faidx_post env ⟨ig, W, none, some rf, fmt⟩ [f] =
      ⟨(read_regions_from_file env ⟨ig, W, none, some rf, fmt⟩ lines).ok,
       (read_regions_from_file env ⟨ig, W, none, some rf, fmt⟩ lines).err,
       (read_regions_from_file env ⟨ig, W, none, some rf, fmt⟩ lines).out,
       Event.load f :: ((read_regions_from_file env ⟨ig, W, none, some rf, fmt⟩ lines).events
         ++ [Event.destroy])⟩ := by
  rw [faidx_post_run env ⟨ig, W, none, some rf, fmt⟩ f [] (by simp) hload
      (by intro p h; cases h)]
  unfold faidx_fetch_phase
  rw [phase2_nil, regionPhase_lines env ⟨ig, W, none, some rf, fmt⟩ rf lines rfl hc]
  simp [hflush, outEvents]

/-- `write_output` in FASTA mode on a failed fetch: the bare header is still
emitted (it is printed before the fetch result is examined), the failure
message goes to stderr, and the status is success exactly when continue-mode
is on and the length is the not-found sentinel. -/
theorem write_output_fasta_neg (env : Env) (r : String) (ig : Bool) (len : Nat)
    (hneg : (env.fetch r).1 < 0) :
    write_output env r ig len Format.fasta =
      ⟨(if ig = true ∧ (env.fetch r).1 = -2 then true else false),
       ["[faidx] Failed to fetch sequence in " ++ r],
       [OutItem.header Format.fasta r],
       [Event.fetch r]⟩ := by
  rw [write_output_fasta,
      write_line_neg env.parse_reg (env.fetch r).2 r ig len (env.fetch r).1 hneg]
  by_cases h : ig = true ∧ (env.fetch r).1 = -2
  · rw [if_pos h, if_pos h]
    rfl
  · rw [if_neg h, if_neg h]
    rfl

/-- When no line fails fatally, the region-file loop concatenates the
per-line outputs and stderr messages in order. -/
theorem read_regions_loop_all_ok (env : Env) (st : OptState) (names : List String) :
    allOk env st names = true → ∀ ret,
    (read_regions_loop env st ret names).out
      = (names.map fun n =>
          (write_output env n st.ignore_error st.line_len st.format).out).flatten ∧
    (read_regions_loop env st ret names).err
      = (names.map fun n =>
          (write_output env n st.ignore_error st.line_len st.format).err).flatten := by
  induction names with
  | nil => intro _ ret; exact ⟨rfl, rfl⟩
  | cons n ns ih =>
    intro h ret
    have hn : (write_output env n st.ignore_error st.line_len st.format).ok = true := by
      simp [allOk] at h
      exact h.1
    have hns : allOk env st ns = true := by
      simp [allOk] at h ⊢
      exact h.2
    simp only [read_regions_loop, hn, if_true, List.map_cons, List.flatten_cons]
    exact ⟨by rw [(ih hns true).1], by rw [(ih hns true).2]⟩

/-- The output-stream items one region contributes. -/
def recordOut (env : Env) (st : OptState) (n : String) : List OutItem :=
  (write_output env n st.ignore_error st.line_len st.format).out

/-! ### A concrete environment for witnesses and counterexamples -/

/-- A small fully concrete environment: `r1`, `r2`, `r3` resolve with lengths
2, 2, 1; `bad` is not found (sentinel `-2`); `err` (and any other name) is a
general fetch error (`-1`); the region file `regs` holds `r1, r2, bad, r3`;
the file `empty` has no lines; loading, building, opening, flushing all
succeed. -/
def envW : Env where
  fetch n :=
    if n = "r1" then (2, ['A', 'C'])
    else if n = "r2" then (2, ['G', 'T'])
    else if n = "r3" then (1, ['T'])
    else if n = "bad" then (-2, [])
    else (-1, [])
  fetchq _ := (-1, [])
  parse_reg _ := none
  regionFileContents f :=
    if f = "regs" then some ["r1", "r2", "bad", "r3"]
    else if f = "regbad" then some ["bad"]
    else if f = "empty" then some []
    else none
  open_ok _ := true
  fai_load_ok := true
  fai_build_ok := true
  flush_ok := true

/-! ### Claim C8: the index-build branch -/

/-- Claim C8: with exactly one positional argument and no region-file option,
the run builds an index for the input file and exits — with status 0 exactly
when the build succeeds — performing no fetch and emitting no record. -/
theorem claim8_build_branch (env : Env) (st : OptState) (f : String)
    (h : st.region_file = none) :
    (faidx_post env st [f]).events = [Event.build f] ∧
    (faidx_post env st [f]).out = [] ∧
    ((faidx_post env st [f]).ok = true ↔ env.fai_build_ok = true) := by
  simp only [faidx_post]
  rw [if_pos (by simp [h])]
  cases hb : env.fai_build_ok <;> simp

/-- Witness for C8. -/
theorem claim8_build_branch_witness :
    (initSt Format.fasta).region_file = none ∧
    ((faidx_post envW (initSt Format.fasta) ["f.fa"]).events = [Event.build "f.fa"] ∧
     (faidx_post envW (initSt Format.fasta) ["f.fa"]).out = [] ∧
     ((faidx_post envW (initSt Format.fasta) ["f.fa"]).ok = true ↔
        envW.fai_build_ok = true)) :=
  ⟨rfl, claim8_build_branch envW (initSt Format.fasta) "f.fa" rfl⟩

/-! ### Claim C3: output path equal to the input path -/

/-- Counterexample to C3 as stated: when exactly one positional argument and
no region file are given, `faidx_core` takes the index-build branch before the
same-path check ever runs, so `faidx -o f.fa f.fa` succeeds (exit status 0,
index built) even though the output path equals the input path. -/
theorem claim3_counterexample :
    (faidx_core envW Format.fasta [Opt.output "f.fa"] ["f.fa"]).ok = true ∧
    (faidx_core envW Format.fasta [Opt.output "f.fa"] ["f.fa"]).events
      = [Event.build "f.fa"] := by decide

/-- Claim C3 (amended): in every run other than the pure index-build
invocation (exactly one positional argument, no region file — where the
output option is ignored), an output path equal to the input path makes the
process fail immediately: the output path is never opened for writing, no
fetch happens, and nothing is emitted. -/
theorem claim3_same_path (env : Env) (st : OptState) (input : String)
    (regions : List String) (hnb : ¬(regions = [] ∧ st.region_file = none))
    (hout : st.output_file = some input) :
    (faidx_post env st (input :: regions)).ok = false ∧
    (faidx_post env st (input :: regions)).out = [] ∧
    (∀ p, Event.openOut p ∉ (faidx_post env st (input :: regions)).events) ∧
    (∀ n, Event.fetch n ∉ (faidx_post env st (input :: regions)).events) := by
  simp only [faidx_post]
  rw [if_neg hnb]
  by_cases hl : env.fai_load_ok = false
  · rw [if_pos hl]
    refine ⟨rfl, rfl, ?_, ?_⟩ <;> intro x <;> simp
  · rw [if_neg hl]
    simp only [hout]
    rw [if_pos trivial]
    refine ⟨rfl, rfl, ?_, ?_⟩ <;> intro x <;> simp

/-- Witness for the amended C3. -/
theorem claim3_same_path_witness :
    ¬((["r1"] : List String) = [] ∧
        (⟨false, 60, some "f.fa", none, Format.fasta⟩ : OptState).region_file = none) ∧
    ((faidx_post envW ⟨false, 60, some "f.fa", none, Format.fasta⟩ ["f.fa", "r1"]).ok = false ∧
     (faidx_post envW ⟨false, 60, some "f.fa", none, Format.fasta⟩ ["f.fa", "r1"]).out = [] ∧
     (∀ p, Event.openOut p ∉
        (faidx_post envW ⟨false, 60, some "f.fa", none, Format.fasta⟩ ["f.fa", "r1"]).events) ∧
     (∀ n, Event.fetch n ∉
        (faidx_post envW ⟨false, 60, some "f.fa", none, Format.fasta⟩ ["f.fa", "r1"]).events)) :=
  ⟨by decide, claim3_same_path envW ⟨false, 60, some "f.fa", none, Format.fasta⟩ "f.fa" ["r1"]
      (by decide) rfl⟩

/-! ### Claim C4: the index handle is destroyed exactly once -/

/-- Counterexample to C4 as stated: on the same-input/output error path the
index has been loaded successfully, yet the run returns without ever calling
`fai_destroy` — the trace holds the load and no destroy. -/
theorem claim4_counterexample :
    envW.fai_load_ok = true ∧
    (faidx_post envW ⟨false, 60, some "f.fa", none, Format.fasta⟩ ["f.fa", "r1"]).events
      = [Event.load "f.fa"] ∧
    Event.destroy ∉
      (faidx_post envW ⟨false, 60, some "f.fa", none, Format.fasta⟩ ["f.fa", "r1"]).events := by
  decide

/-- Claim C4 (amended): on every path of a run that loads the index
successfully and passes the output-stream setup (the output path, when given,
differs from the input and opens), the handle is destroyed exactly once, as
the last event, and never used afterwards; on the two early-exit error paths
(same input/output path, output open failure) the run returns without
releasing the handle. -/
theorem claim4_destroy_once (env : Env) (st : OptState) (input : String)
    (regions : List String)
    (hnb : ¬(regions = [] ∧ st.region_file = none))
    (hload : env.fai_load_ok = true)
    (hout : ∀ p, st.output_file = some p → p ≠ input ∧ env.open_ok p = true) :
    ∃ pre, (faidx_post env st (input :: regions)).events = pre ++ [Event.destroy] ∧
      Event.destroy ∉ pre := by
  rw [faidx_post_run env st input regions hnb hload hout]
  refine ⟨outEvents st input ++ (regionPhase env st).events ++ (phase2 env st regions).events,
    ?_, ?_⟩
  · show outEvents st input ++ (regionPhase env st).events ++
        (phase2 env st regions).events ++ [Event.destroy] = _
    simp [List.append_assoc]
  · intro hmem
    rcases List.mem_append.mp hmem with hmem | hmem
    rcases List.mem_append.mp hmem with hmem | hmem
    · exact outEvents_no_destroy st input hmem
    · exact regionPhase_no_destroy env st hmem
    · unfold phase2 at hmem
      by_cases hok : (regionPhase env st).ok = true
      · rw [if_pos hok] at hmem
        exact run_args_no_destroy env st regions hmem
      · rw [if_neg hok] at hmem
        simp at hmem

/-- Witness for the amended C4. -/
theorem claim4_destroy_once_witness :
    (¬((["r1"] : List String) = [] ∧ (initSt Format.fasta).region_file = none) ∧
      envW.fai_load_ok = true) ∧
    ∃ pre, (faidx_post envW (initSt Format.fasta) ["f.fa", "r1"]).events
        = pre ++ [Event.destroy] ∧ Event.destroy ∉ pre :=
  ⟨⟨by decide, rfl⟩,
    claim4_destroy_once envW (initSt Format.fasta) "f.fa" ["r1"] (by decide) rfl
      (by intro p h; cases h)⟩

/-! ### Claim C10: an empty region file fails the run -/

/-- Claim C10: when the region file opens and holds zero lines, the
region-file reader returns failure (its `ret` was initialized to failure and
no line ever overwrote it) and the run exits with failure, even though no
fetch was ever attempted — the positional region arguments are skipped. -/
theorem claim10_empty_region_file (env : Env) (st : OptState) (input : String)
    (regions : List String) (rf : String)
    (hrf : st.region_file = some rf)
    (hc : env.regionFileContents rf = some [])
    (hload : env.fai_load_ok = true)
    (hout : ∀ p, st.output_file = some p → p ≠ input ∧ env.open_ok p = true) :
    (faidx_post env st (input :: regions)).ok = false ∧
    (∀ n, Event.fetch n ∉ (faidx_post env st (input :: regions)).events) ∧
    (∀ n, Event.fetchq n ∉ (faidx_post env st (input :: regions)).events) := by
  rw [faidx_post_run env st input regions (by simp [hrf]) hload hout]
  have h1 : regionPhase env st = ⟨false, [], [], []⟩ := by
    rw [regionPhase_lines env st rf [] hrf hc]
    rfl
  have h2 : phase2 env st regions = ⟨true, [], [], []⟩ := by
    unfold phase2
    rw [h1]
    rfl
  unfold faidx_fetch_phase
  rw [h1, h2]
  refine ⟨by cases env.flush_ok <;> simp, ?_, ?_⟩
  · intro n hmem
    simp at hmem
    exact outEvents_no_fetch st input n hmem
  · intro n hmem
    simp at hmem
    exact outEvents_no_fetchq st input n hmem

/-- Witness for C10. -/
theorem claim10_empty_region_file_witness :
    ((⟨false, 60, none, some "empty", Format.fasta⟩ : OptState).region_file = some "empty" ∧
      envW.regionFileContents "empty" = some [] ∧ envW.fai_load_ok = true) ∧
    ((faidx_post envW ⟨false, 60, none, some "empty", Format.fasta⟩ ["f.fa", "r1"]).ok
        = false ∧
     (∀ n, Event.fetch n ∉
        (faidx_post envW ⟨false, 60, none, some "empty", Format.fasta⟩ ["f.fa", "r1"]).events) ∧
     (∀ n, Event.fetchq n ∉
        (faidx_post envW ⟨false, 60, none, some "empty", Format.fasta⟩ ["f.fa", "r1"]).events)) :=
  ⟨⟨rfl, by decide, rfl⟩,
    claim10_empty_region_file envW ⟨false, 60, none, some "empty", Format.fasta⟩ "f.fa" ["r1"]
      "empty" rfl (by decide) rfl (by intro p h; cases h)⟩

/-! ### Claim C2: fetch failures and continue-mode -/

/-- Counterexample to C2 as stated: the skip in continue-mode is not silent.
`write_line` prints the failed-fetch message to stderr before looking at
continue-mode, also when it then skips the not-found region and succeeds. -/
theorem claim2_counterexample :
    (write_line (fun _ => none) [] "bad" true 60 (-2)).ok = true ∧
    (write_line (fun _ => none) [] "bad" true 60 (-2)).err
      = ["[faidx] Failed to fetch sequence in bad"] := by decide

/-- Claim C2 (amended): for a requested region whose fetch fails (negative
length), the run fails — unless continue-mode is enabled and the length is
the not-found sentinel `-2`, in which case the region is skipped and the run
succeeds; the skip is not silent: the failed-fetch diagnostic is printed to
stderr in every failure case.  This holds for a positional region and for a
region-file line alike. -/
theorem claim2_fetch_failure (env : Env) (ig : Bool) (f r rf : String)
    (hneg : (env.fetch r).1 < 0)
    (hrf : env.regionFileContents rf = some [r])
    (hload : env.fai_load_ok = true)
    (hflush : env.flush_ok = true) :
    ((faidx_post env ⟨ig, 60, none, none, Format.fasta⟩ [f, r]).ok = true
        ↔ ig = true ∧ (env.fetch r).1 = -2) ∧
    ((faidx_post env ⟨ig, 60, none, some rf, Format.fasta⟩ [f]).ok = true
        ↔ ig = true ∧ (env.fetch r).1 = -2) ∧
    ("[faidx] Failed to fetch sequence in " ++ r)
        ∈ (faidx_post env ⟨ig, 60, none, none, Format.fasta⟩ [f, r]).err := by
  have hw := write_output_fasta_neg env r ig 60 hneg
  rw [faidx_post_simple env ig 60 Format.fasta f [r] (by simp) hload hflush,
      faidx_post_regfile env ig 60 Format.fasta f rf [r] hrf hload hflush]
  by_cases h : ig = true ∧ (env.fetch r).1 = -2
  · obtain ⟨hig, h2⟩ := h
    subst hig
    refine ⟨?_, ?_, ?_⟩ <;>
      simp [run_args, read_regions_from_file, read_regions_loop, hw, h2]
  · refine ⟨?_, ?_, ?_⟩ <;>
      simp [run_args, read_regions_from_file, read_regions_loop, hw, h]

/-- Witness for the amended C2 (continue-mode, not-found region `bad`). -/
theorem claim2_fetch_failure_witness :
    ((envW.fetch "bad").1 < 0 ∧ envW.regionFileContents "regbad" = some ["bad"]) ∧
    (((faidx_post envW ⟨true, 60, none, none, Format.fasta⟩ ["f.fa", "bad"]).ok = true
        ↔ true = true ∧ (envW.fetch "bad").1 = -2) ∧
     ((faidx_post envW ⟨true, 60, none, some "regbad", Format.fasta⟩ ["f.fa"]).ok = true
        ↔ true = true ∧ (envW.fetch "bad").1 = -2) ∧
     ("[faidx] Failed to fetch sequence in " ++ "bad")
        ∈ (faidx_post envW ⟨true, 60, none, none, Format.fasta⟩ ["f.fa", "bad"]).err) :=
  ⟨⟨by decide, by decide⟩,
    claim2_fetch_failure envW true "f.fa" "bad" "regbad" (by decide) (by decide) rfl rfl⟩

/-! ### Claim C5: processing order -/

/-- Claim C5: regions are processed strictly in input order — all region-file
lines (in file order) before any positional argument, positional arguments in
argument order — and processing stops just after the first fatal failure; in
continue-mode a not-found failure is not fatal (it does not stop processing,
because the record emitter succeeds on it).  The positional arguments are
reached only when the region-file phase succeeded, which for an open file
means: at least one line, none fatal. -/
theorem claim5_processing_order (env : Env) (st : OptState) (input : String)
    (regions : List String) (rf : String) (lines : List String)
    (hrf : st.region_file = some rf)
    (hc : env.regionFileContents rf = some lines)
    (hload : env.fai_load_ok = true)
    (hout : ∀ p, st.output_file = some p → p ≠ input ∧ env.open_ok p = true) :
    fetchNames (faidx_post env st (input :: regions)).events
      = specStopAfterFirstFatal env st lines ++
        (if lines ≠ [] ∧ allOk env st lines = true
         then specStopAfterFirstFatal env st regions else []) := by
  rw [faidx_post_run env st input regions (by simp [hrf]) hload hout,
      faidx_fetch_phase_events]
  simp only [fetchNames_append]
  rw [outEvents_fetchNames, phase2_fetchNames,
      regionPhase_lines env st rf lines hrf hc,
      show read_regions_from_file env st lines = read_regions_loop env st false lines
        from rfl,
      read_regions_loop_fetchNames env st lines false,
      read_regions_loop_ok env st lines false,
      show fetchNames [Event.destroy] = [] from rfl]
  cases lines with
  | nil => simp [specStopAfterFirstFatal]
  | cons x xs =>
    by_cases ha : allOk env st (x :: xs) = true
    · simp [ha]
    · simp [ha]

/-- Witness for C5: the file `regs` holds a skipped not-found region, all its
lines are processed, then the positional arguments up to the fatal one. -/
theorem claim5_processing_order_witness :
    ((⟨true, 60, none, some "regs", Format.fasta⟩ : OptState).region_file = some "regs" ∧
      envW.regionFileContents "regs" = some ["r1", "r2", "bad", "r3"] ∧
      envW.fai_load_ok = true) ∧
    fetchNames (faidx_post envW ⟨true, 60, none, some "regs", Format.fasta⟩
        ["f.fa", "r3", "err", "r1"]).events
      = specStopAfterFirstFatal envW ⟨true, 60, none, some "regs", Format.fasta⟩
          ["r1", "r2", "bad", "r3"] ++
        (if (["r1", "r2", "bad", "r3"] : List String) ≠ [] ∧
            allOk envW ⟨true, 60, none, some "regs", Format.fasta⟩
              ["r1", "r2", "bad", "r3"] = true
         then specStopAfterFirstFatal envW ⟨true, 60, none, some "regs", Format.fasta⟩
            ["r3", "err", "r1"] else []) :=
  ⟨⟨rfl, by decide, rfl⟩,
    claim5_processing_order envW ⟨true, 60, none, some "regs", Format.fasta⟩ "f.fa"
      ["r3", "err", "r1"] "regs" ["r1", "r2", "bad", "r3"] rfl (by decide) rfl
      (by intro p h; cases h)⟩

/-! ### Claim C9: continue-mode over a region file with one invalid name -/

/-- Counterexample to C9 as stated: the run over `r1, r2, bad, r3` in
continue-mode exits 0 and emits the three well-formed records, but not
"nothing else" — the record emitter prints the header before examining the
fetch result, so a bare `>bad` header line with no body is also emitted. -/
theorem claim9_counterexample :
    (faidx_post envW ⟨true, 60, none, some "regs", Format.fasta⟩ ["f.fa"]).ok = true ∧
    (faidx_post envW ⟨true, 60, none, some "regs", Format.fasta⟩ ["f.fa"]).out
      = [OutItem.header Format.fasta "r1", OutItem.body ['A', 'C'],
         OutItem.header Format.fasta "r2", OutItem.body ['G', 'T'],
         OutItem.header Format.fasta "bad",
         OutItem.header Format.fasta "r3", OutItem.body ['T']] ∧
    OutItem.header Format.fasta "bad"
      ∈ (faidx_post envW ⟨true, 60, none, some "regs", Format.fasta⟩ ["f.fa"]).out := by
  decide

/-- Claim C9 (amended): a continue-mode run over a region file whose lines are
either valid (positive length) or not found (sentinel `-2`) exits 0; its
output is the in-order concatenation of one block per line, where a valid
line contributes a well-formed record (header plus nonempty wrapped body) and
a not-found line contributes a bare header with no body, with a failed-fetch
warning on stderr.  In particular, three valid names and one invalid produce
three well-formed records, one bare header, a warning, and exit code 0. -/
theorem claim9_continue_mode (env : Env) (W : Nat) (f rf : String) (lines : List String)
    (hW : 1 ≤ W)
    (hc : env.regionFileContents rf = some lines) (hne : lines ≠ [])
    (hload : env.fai_load_ok = true) (hflush : env.flush_ok = true)
    (hval : ∀ n ∈ lines, (env.fetch n).1 = -2 ∨ 1 ≤ (env.fetch n).1)
    (hbuf : ∀ n ∈ lines, ((env.fetch n).2).length = (env.fetch n).1.toNat) :
    (faidx_post env ⟨true, W, none, some rf, Format.fasta⟩ [f]).ok = true ∧
    (faidx_post env ⟨true, W, none, some rf, Format.fasta⟩ [f]).out
      = (lines.map (recordOut env ⟨true, W, none, some rf, Format.fasta⟩)).flatten ∧
    (∀ n ∈ lines, (env.fetch n).1 = -2 →
        recordOut env ⟨true, W, none, some rf, Format.fasta⟩ n
          = [OutItem.header Format.fasta n] ∧
        ("[faidx] Failed to fetch sequence in " ++ n)
          ∈ (faidx_post env ⟨true, W, none, some rf, Format.fasta⟩ [f]).err) ∧
    (∀ n ∈ lines, 1 ≤ (env.fetch n).1 →
        ∃ bs, bs ≠ [] ∧ recordOut env ⟨true, W, none, some rf, Format.fasta⟩ n
          = OutItem.header Format.fasta n :: bs.map OutItem.body) := by
  have hok : ∀ n ∈ lines, (write_output env n true W Format.fasta).ok = true := by
    intro n hn
    rcases hval n hn with h | h
    · rw [write_output_fasta_neg env n true W (by omega)]
      simp [h]
    · rw [write_output_fasta,
          write_line_pos env.parse_reg (env.fetch n).2 n true W (env.fetch n).1 (by omega)]
  have hallOk : allOk env ⟨true, W, none, some rf, Format.fasta⟩ lines = true := by
    rw [allOk, List.all_eq_true]
    intro n hn
    exact hok n hn
  have hloop := read_regions_loop_all_ok env ⟨true, W, none, some rf, Format.fasta⟩
    lines hallOk false
  have hok1 : (read_regions_from_file env ⟨true, W, none, some rf, Format.fasta⟩
      lines).ok = true := by
    rw [show read_regions_from_file env ⟨true, W, none, some rf, Format.fasta⟩ lines
          = read_regions_loop env ⟨true, W, none, some rf, Format.fasta⟩ false lines
        from rfl,
        read_regions_loop_ok]
    cases lines with
    | nil => exact absurd rfl hne
    | cons x xs => simpa using hallOk
  rw [faidx_post_regfile env true W Format.fasta f rf lines hc hload hflush]
  refine ⟨hok1, ?_, ?_, ?_⟩
  · exact hloop.1
  · intro n hn h2
    constructor
    · simp only [recordOut]
      rw [write_output_fasta_neg env n true W (by omega)]
    · show _ ∈ (read_regions_from_file env ⟨true, W, none, some rf, Format.fasta⟩ lines).err
      rw [show read_regions_from_file env ⟨true, W, none, some rf, Format.fasta⟩ lines
            = read_regions_loop env ⟨true, W, none, some rf, Format.fasta⟩ false lines
          from rfl, hloop.2, List.mem_flatten]
      refine ⟨["[faidx] Failed to fetch sequence in " ++ n], ?_, by simp⟩
      refine List.mem_map.mpr ⟨n, hn, ?_⟩
      rw [write_output_fasta_neg env n true W (by omega)]
  · intro n hn h1
    obtain ⟨w, hWw⟩ : ∃ w, W = w + 1 := ⟨W - 1, by omega⟩
    refine ⟨chunksOf W (((env.fetch n).2).take (env.fetch n).1.toNat), ?_, ?_⟩
    · intro hnil
      have hlen0 := congrArg List.length hnil
      subst hWw
      rw [chunksOf_length, List.length_nil] at hlen0
      have hlt := (Nat.div_eq_zero_iff (by omega)).mp hlen0
      have htk : (((env.fetch n).2).take (env.fetch n).1.toNat).length
          = (env.fetch n).1.toNat := by
        rw [List.length_take, hbuf n hn]
        omega
      rw [htk] at hlt
      omega
    · simp only [recordOut]
      rw [write_output_fasta,
          write_line_pos env.parse_reg (env.fetch n).2 n true W (env.fetch n).1 (by omega)]

/-- Witness for the amended C9: the `regs` file of `envW` with three valid
names and one not-found name. -/
theorem claim9_continue_mode_witness :
    (1 ≤ 60 ∧ envW.regionFileContents "regs" = some ["r1", "r2", "bad", "r3"] ∧
      (∀ n ∈ (["r1", "r2", "bad", "r3"] : List String),
        (envW.fetch n).1 = -2 ∨ 1 ≤ (envW.fetch n).1) ∧
      (∀ n ∈ (["r1", "r2", "bad", "r3"] : List String),
        ((envW.fetch n).2).length = (envW.fetch n).1.toNat)) ∧
    ((faidx_post envW ⟨true, 60, none, some "regs", Format.fasta⟩ ["f.fa"]).ok = true ∧
     (faidx_post envW ⟨true, 60, none, some "regs", Format.fasta⟩ ["f.fa"]).out
       = ((["r1", "r2", "bad", "r3"] : List String).map
           (recordOut envW ⟨true, 60, none, some "regs", Format.fasta⟩)).flatten ∧
     (∀ n ∈ (["r1", "r2", "bad", "r3"] : List String), (envW.fetch n).1 = -2 →
         recordOut envW ⟨true, 60, none, some "regs", Format.fasta⟩ n
           = [OutItem.header Format.fasta n] ∧
         ("[faidx] Failed to fetch sequence in " ++ n)
           ∈ (faidx_post envW ⟨true, 60, none, some "regs", Format.fasta⟩ ["f.fa"]).err) ∧
     (∀ n ∈ (["r1", "r2", "bad", "r3"] : List String), 1 ≤ (envW.fetch n).1 →
         ∃ bs, bs ≠ [] ∧ recordOut envW ⟨true, 60, none, some "regs", Format.fasta⟩ n
           = OutItem.header Format.fasta n :: bs.map OutItem.body)) :=
  ⟨⟨by omega, by decide, by decide, by decide⟩,
    claim9_continue_mode envW 60 "f.fa" "regs" ["r1", "r2", "bad", "r3"] (by omega)
      (by decide) (by decide) rfl rfl (by decide) (by decide)⟩

/-! ### Claim C6: invalid `--length` values fall back to 60 -/

/-- Claim C6: a `--length` value that `atoi` parses below 1 triggers a
warning, the option state falls back to the default 60, and the emitted body
is wrapped at width exactly 60 — the invalid value never becomes the wrap
width. -/
theorem claim6_bad_length (env : Env) (s f r : String) (L : Int) (buf : List Char)
    (hbad : atoi s < 1)
    (hfetch : env.fetch r = (L, buf)) (hL : 1 ≤ L)
    (hload : env.fai_load_ok = true) (hflush : env.flush_ok = true) :
    ("[faidx] bad line length " ++ s ++ ", using default:60")
        ∈ (faidx_core env Format.fasta [Opt.length s] [f, r]).err ∧
    (processOpts (initSt Format.fasta) [] [Opt.length s]).2.1.line_len = 60 ∧
    (faidx_core env Format.fasta [Opt.length s] [f, r]).out
      = OutItem.header Format.fasta r
          :: (chunksOf 60 (buf.take L.toNat)).map OutItem.body := by
  have hopts : processOpts (initSt Format.fasta) [] [Opt.length s]
      = (none, ⟨false, 60, none, none, Format.fasta⟩,
         ["[faidx] bad line length " ++ s ++ ", using default:60"]) := by
    simp only [processOpts, initSt]
    rw [if_pos hbad]
    rfl
  have hwl := write_line_pos env.parse_reg buf r false 60 L (by omega)
  have hok : (write_output env r false 60 Format.fasta).ok = true := by
    rw [write_output_fasta, hfetch]
    rw [show ((L, buf) : Int × List Char).1 = L from rfl,
        show ((L, buf) : Int × List Char).2 = buf from rfl, hwl]
  have hout : (write_output env r false 60 Format.fasta).out
      = OutItem.header Format.fasta r
          :: (chunksOf 60 (buf.take L.toNat)).map OutItem.body := by
    rw [write_output_fasta, hfetch]
    rw [show ((L, buf) : Int × List Char).1 = L from rfl,
        show ((L, buf) : Int × List Char).2 = buf from rfl, hwl]
  refine ⟨?_, ?_, ?_⟩
  · simp only [faidx_core, hopts]
    exact List.mem_append_left _ (by simp)
  · rw [hopts]
  · simp only [faidx_core, hopts]
    rw [faidx_post_simple env false 60 Format.fasta f [r] (by simp) hload hflush]
    show (run_args env ⟨false, 60, none, none, Format.fasta⟩ [r]).out = _
    simp only [run_args, hok, if_true, hout]
    simp

/-- Witness for C6 with the literal invalid value `"0"`. -/
theorem claim6_bad_length_witness :
    (atoi "0" < 1 ∧ envW.fetch "r1" = (2, ['A', 'C']) ∧ (1 : Int) ≤ 2) ∧
    (("[faidx] bad line length " ++ "0" ++ ", using default:60")
        ∈ (faidx_core envW Format.fasta [Opt.length "0"] ["f.fa", "r1"]).err ∧
     (processOpts (initSt Format.fasta) [] [Opt.length "0"]).2.1.line_len = 60 ∧
     (faidx_core envW Format.fasta [Opt.length "0"] ["f.fa", "r1"]).out
       = OutItem.header Format.fasta "r1"
           :: (chunksOf 60 ((['A', 'C'] : List Char).take (2 : Int).toNat)).map
                OutItem.body) :=
  ⟨⟨by decide, by decide, by decide⟩,
    claim6_bad_length envW "0" "f.fa" "r1" 2 ['A', 'C'] (by decide) (by decide) (by decide)
      rfl rfl⟩

end Faidx
